import Mathlib

/-!
Verification development for `pdf_downloader_agent.py` (PDFDownloaderAgent).

The Python program drives a browser to download PDF files linked from a web
page.  We shallowly embed the pure decision logic of the program:

* `find_pdf_links` (source lines 90-136): link discovery over the page DOM,
  with the browser's selector engine modelled as an oracle (`Page`);
* the URL-extraction fallback chain and acceptance filter inside
  `download_pdfs` (source lines 150-217), with per-attribute WebDriver calls
  modelled as calls that either return a value or raise (`Exn`);
* `rename_latest_download` (source lines 219-275), with the filesystem
  modelled as an oracle (`RenameWorld`) supplying directory listings and
  rename outcomes; sleeps are recorded as a list of slept durations.

Machine-level concerns (actual HTTP transfer, real time) stay in the oracles;
every branch of the embedded definitions follows the Python source.
-/

/-- Result of a call into an external component (WebDriver, `os`), which in
Python either returns a value or raises an exception. -/
inductive Exn (α : Type) where
  | ok (val : α)
  | raised
deriving DecidableEq, Repr

namespace Exn

def isOk {α : Type} : Exn α → Bool
  | .ok _ => true
  | .raised => false

end Exn

/-! ### String helpers (Python `str` operations used by the source) -/

/-- `hasPrefixChars n h` is true when `n` is a prefix of `h` (char lists). -/
def hasPrefixChars : List Char → List Char → Bool
  | [], _ => true
  | _ :: _, [] => false
  | a :: as, b :: bs => a == b && hasPrefixChars as bs

/-- Python `needle in hay` on strings: substring containment. -/
def hasSubChars (needle : List Char) : List Char → Bool
  | [] => needle.isEmpty
  | c :: t => hasPrefixChars needle (c :: t) || hasSubChars needle t

/-- Python `needle in hay` for strings. -/
def containsSub (needle hay : String) : Bool :=
  hasSubChars needle.data hay.data

/-- Python `s.endswith(suffix)`. -/
def strEndsWith (s suffix₀ : String) : Bool :=
  hasPrefixChars suffix₀.data.reverse s.data.reverse

/-- Python `s.lower()` (ASCII case folding, character by character). -/
def lowerStr (s : String) : String :=
  String.mk (s.data.map Char.toLower)

/-- Python truthiness of an optional string: `None` and `""` are falsy. -/
def pyTruthy : Option String → Bool
  | none => false
  | some s => !(s == "")

/-- Python `f"{n:03d}"` for a nonnegative `n`: decimal digits padded with
zeros to a minimum width of 3. -/
def pad3 (n : Nat) : String :=
  let s := toString n
  if s.length < 3 then String.mk (List.replicate (3 - s.length) '0') ++ s else s

/-! ### DOM elements and the page oracle -/

/-- A DOM element as seen through WebDriver.  `eid` is the element identity
(WebDriver element equality compares element ids).  Attribute reads and
`tag_name` are remote calls that may raise (e.g. staleness), hence `Exn`.
`parentHref` combines `execute_script("return arguments[0].parentNode")`
followed by `get_attribute('href')` on the parent (source lines 175-176). -/
structure Elem where
  eid : Nat
  tag_name : Exn String
  href : Exn (Option String)
  onclick : Exn (Option String)
  parentHref : Exn (Option String)
  displayed : Bool
deriving DecidableEq, Repr

/-- The browser's selector engine, as an oracle: `cssFind` is
`driver.find_elements(By.CSS_SELECTOR, sel)` and `xpathFind` is the single
XPath query of source line 119.  Either may raise. -/
structure Page where
  cssFind : String → Exn (List Elem)
  xpathFind : Exn (List Elem)

/-- The six fixed CSS selector patterns, in source order (lines 98-105). -/
def selectors : List String :=
  ["a[href$=\x27.pdf\x27]",
   "a.pdf-icon",
   "a img[src*=\x27pdf\x27]",
   "a[href*=\x27pdf\x27]",
   "img[src*=\x27pdf\x27]",
   "a[onclick*=\x27pdf\x27]"]

/-- Results of one CSS selector; a raising lookup contributes no results
(source lines 108-115: `except` prints and continues). -/
def cssMatches (p : Page) (sel : String) : List Elem :=
  match p.cssFind sel with
  | .ok ls => ls
  | .raised => []

/-- One iteration of the selector loop (source lines 108-115;
`if links: pdf_links.extend(links)`; extending by an empty list is a no-op). -/
def cssStep (p : Page) (acc : List Elem) (sel : String) : List Elem :=
  match p.cssFind sel with
  | .ok ls => acc ++ ls
  | .raised => acc

/-- Accumulation over the six selectors in listed order. -/
def gatherCss (p : Page) : List Elem :=
  selectors.foldl (cssStep p) []

/-- Results of the broad XPath pattern; a raising lookup contributes none
(source lines 118-127). -/
def xpathMatches (p : Page) : List Elem :=
  match p.xpathFind with
  | .ok ls => ls
  | .raised => []

/-- Python `link in pdf_links` membership, by WebDriver element equality,
i.e. element identity. -/
def elemMem (l : Elem) (acc : List Elem) : Bool :=
  acc.any (fun x => x.eid == l.eid)

/-- Appending an XPath match only when not already collected
(source lines 123-125). -/
def addUnique (acc : List Elem) (l : Elem) : List Elem :=
  if elemMem l acc then acc else acc ++ [l]

/-- All collected matches: CSS-selector matches in selector order, then the
new XPath matches in XPath order (source lines 97-127). -/
def collectedLinks (p : Page) : List Elem :=
  (xpathMatches p).foldl addUnique (gatherCss p)

/-- One iteration of the final pass (source lines 131-133):
`if link.is_displayed() and link not in unique_links: unique_links.append(link)`. -/
def dedupStep (acc : List Elem) (l : Elem) : List Elem :=
  if l.displayed && !elemMem l acc then acc ++ [l] else acc

/-- The final pass of `find_pdf_links` (source lines 130-133): keep each
displayed element once, by element identity, preserving order. -/
def dedupVisible (ls : List Elem) : List Elem :=
  ls.foldl dedupStep []

/-- `find_pdf_links` (source lines 90-136). -/
def find_pdf_links (p : Page) : List Elem :=
  dedupVisible (collectedLinks p)

/-! ### The `onclick` regex

`re.search(r"window\.open\(['\"](.+?pdf)['\"]", onclick)` from source
line 166: leftmost match of the literal `window.open(` followed by a quote,
then a lazy group of at least one `.`-matched character ending in `pdf`,
followed by a quote.  `.` does not match a newline. -/

def quoteChar1 : Char := Char.ofNat 39

def quoteChar2 : Char := Char.ofNat 34

def isQuote (c : Char) : Bool := c == quoteChar1 || c == quoteChar2

def newlineChar : Char := Char.ofNat 10

def openLit : List Char := "window.open(".data

/-- Whether `g` matches the group pattern `.+?pdf`: at least one leading
character (none of them a newline) followed by the literal `pdf`. -/
def validGroup (g : List Char) : Bool :=
  decide (4 ≤ g.length) &&
  (match g.reverse with
   | f :: d :: p :: _ => f == 'f' && d == 'd' && p == 'p'
   | _ => false) &&
  !((g.take (g.length - 3)).contains newlineChar)

/-- Lazy completion: the shortest extension of `g` by chars of the input that
forms a valid group followed immediately by a quote. -/
def findGroupEnd (g : List Char) : List Char → Option (List Char)
  | [] => none
  | c :: rest =>
      let g2 := g ++ [c]
      if validGroup g2 && (match rest with | q :: _ => isQuote q | [] => false)
      then some g2
      else findGroupEnd g2 rest

/-- Try to match the whole pattern at the current position. -/
def tryAt (cs : List Char) : Option (List Char) :=
  if hasPrefixChars openLit cs then
    match cs.drop 12 with
    | q :: rest => if isQuote q then findGroupEnd [] rest else none
    | [] => none
  else none

/-- `re.search` scan: leftmost position with a match wins. -/
def searchFrom : List Char → Option (List Char)
  | [] => none
  | c :: rest =>
      match tryAt (c :: rest) with
      | some g => some g
      | none => searchFrom rest

/-- Extract the quoted path argument of a `window.open` call ending in `pdf`
(source lines 164-168). -/
def onclickExtract (oc : String) : Option String :=
  (searchFrom oc.data).map (fun g => String.mk g)

/-! ### URL extraction fallback chain (source lines 152-178) -/

/-- The fallback chain computing `pdf_url` for one link, exactly as in
`download_pdfs` lines 152-178.  The result is the final value of `pdf_url`
(`.ok none` / `.ok (some "")` are both falsy and lead to a skip); `.raised`
models `link.tag_name` raising at line 172, which is caught by the per-link
handler, not by an inner `except`. -/
def extract_url (l : Elem) : Exn (Option String) :=
  let p1 : Option String :=
    match l.href with
    | .ok u => u
    | .raised => none
  if pyTruthy p1 then .ok p1
  else
    let p2 : Option String :=
      match l.onclick with
      | .ok (some oc) =>
          if pyTruthy (some oc) && containsSub "pdf" (lowerStr oc) then
            match onclickExtract oc with
            | some u => some u
            | none => p1
          else p1
      | _ => p1
    if pyTruthy p2 then .ok p2
    else
      match l.tag_name with
      | .raised => .raised
      | .ok t =>
          if t == "img" then
            match l.parentHref with
            | .ok u => .ok u
            | .raised => .ok p2
          else .ok p2

/-! ### The download directory and `rename_latest_download`
(source lines 219-275) -/

/-- A file in the download directory: its name together with its
`os.path.getmtime` value.  A directory listing is a `List FsFile` in
`os.listdir` order. -/
structure FsFile where
  name : String
  mtime : Nat
deriving DecidableEq, Repr

/-- The filter of source line 228:
`f.endswith('.pdf') or f.endswith('.pdf.crdownload')`. -/
def isCandidate (f : String) : Bool :=
  strEndsWith f ".pdf" || strEndsWith f ".pdf.crdownload"

def candidates (dir : List FsFile) : List FsFile :=
  dir.filter (fun f => isCandidate f.name)

/-- `pdf_files.sort(key=getmtime, reverse=True); pdf_files[0]` (source lines
235-236): the first file with maximal modification time (Python's sort is
stable, so ties keep listing order). -/
def selectLatest : List FsFile → Option FsFile
  | [] => none
  | f :: fs => some (fs.foldl (fun best g => if best.mtime < g.mtime then g else best) f)

/-- The `.crdownload` in-progress marker check (source lines 239, 247, 250). -/
def crdownloadMarked (s : String) : Bool :=
  strEndsWith s ".crdownload"

/-- Outcome of one `os.rename` call as classified by the handlers at source
lines 263 and 271. -/
inductive RenameOp where
  | ok
  | permissionError
  | otherError
deriving DecidableEq, Repr

/-- The filesystem oracle for one `rename_latest_download` call:
`listing0` is the first `os.listdir` (with each file's `getmtime` folded in;
a raise of either is a raise of the listing), `pollListings i` the listing
obtained in polling iteration `i`, `renameResult` the first `os.rename`
outcome and `retryResult` the outcome of the retry after a `PermissionError`. -/
structure RenameWorld where
  listing0 : Exn (List FsFile)
  pollListings : Nat → Exn (List FsFile)
  renameResult : RenameOp
  retryResult : Exn Unit

/-- What a `rename_latest_download` call did (mirrors the distinct
print/return paths of source lines 226-275). -/
inductive RenameResult where
  | noFiles
  | timedOut (fname : String)
  | renamed (old new : String)
  | renameError (old new : String)
  | renameFailedTwice (old new : String)
  | caught
deriving DecidableEq, Repr

/-- The polling loop of source lines 241-248: up to `k` iterations starting
at iteration index `i`; each iteration sleeps 1 time-unit then re-lists; if
the listing is nonempty the most recent candidate is re-selected and the loop
breaks when it lacks the marker.  Returns the final `latest_file` (or a raise
from `os.listdir` / `getmtime`) and the list of slept durations. -/
def pollLoop (w : RenameWorld) (cur : FsFile) (i : Nat) : Nat → Exn FsFile × List Nat
  | 0 => (.ok cur, [])
  | k + 1 =>
      match w.pollListings i with
      | .raised => (.raised, [1])
      | .ok dir =>
          match selectLatest (candidates dir) with
          | none =>
              let r := pollLoop w cur (i + 1) k
              (r.1, 1 :: r.2)
          | some f =>
              if crdownloadMarked f.name then
                let r := pollLoop w f (i + 1) k
                (r.1, 1 :: r.2)
              else (.ok f, [1])

/-- The body of the outer `try` of `rename_latest_download` (source lines
227-272).  Raises (`.raised`) propagate from `os.listdir`/`getmtime`; rename
failures are absorbed by the inner handlers (lines 263-272).  The second
component records slept durations (poll sleeps of 1 and the 5-unit retry
delay of line 265). -/
def rename_body (n : Nat) (w : RenameWorld) : Exn RenameResult × List Nat :=
  match w.listing0 with
  | .raised => (.raised, [])
  | .ok dir =>
      match selectLatest (candidates dir) with
      | none => (.ok .noFiles, [])
      | some latest0 =>
          let pr :=
            if crdownloadMarked latest0.name then pollLoop w latest0 0 30
            else (.ok latest0, [])
          match pr with
          | (.raised, s1) => (.raised, s1)
          | (.ok latest, s1) =>
              if crdownloadMarked latest.name then (.ok (.timedOut latest.name), s1)
              else
                let newName := pad3 n ++ "-" ++ latest.name
                match w.renameResult with
                | .ok => (.ok (.renamed latest.name newName), s1)
                | .otherError => (.ok (.renameError latest.name newName), s1)
                | .permissionError =>
                    match w.retryResult with
                    | .ok _ => (.ok (.renamed latest.name newName), s1 ++ [5])
                    | .raised => (.ok (.renameFailedTwice latest.name newName), s1 ++ [5])

/-- `rename_latest_download` (source lines 219-275).  `n` is the value of
`self.download_counter` at call time (the `index` parameter of the Python
function is unused by its body).  The outer `except Exception` (line 274)
turns any raise of the body into a normal return (`.caught`). -/
def rename_latest_download (n : Nat) (w : RenameWorld) : Exn (RenameResult × List Nat) :=
  match rename_body n w with
  | (.ok r, s) => .ok (r, s)
  | (.raised, s) => .ok (.caught, s)

/-! ### `download_pdfs` (source lines 138-217) -/

/-- Outcome of the tab-open / navigate / close block (source lines 192-204),
an external interaction: it succeeds, raises
`StaleElementReferenceException`, or raises some other exception. -/
inductive NavOutcome where
  | ok
  | stale
  | err
deriving DecidableEq, Repr

/-- The external world of one `download_pdfs` run: the page, and per loop
index `i` the navigation outcome and the filesystem world seen by the
finalizer call for that link. -/
structure Run where
  page : Page
  nav : Nat → NavOutcome
  fs : Nat → RenameWorld

/-- Observable event of one iteration of the `download_pdfs` loop. -/
inductive DStep where
  | skippedStale (i : Nat)
  | skippedNoUrl (i : Nat)
  | skippedNotPdf (i : Nat) (url : String)
  | navFailed (i : Nat) (n : Nat) (url : String)
  | downloaded (i : Nat) (n : Nat) (url : String) (r : RenameResult × List Nat)
deriving DecidableEq, Repr

namespace DStep

/-- The sequence number consumed by this iteration, if any. -/
def seqNum : DStep → Option Nat
  | .navFailed _ n _ => some n
  | .downloaded _ n _ _ => some n
  | _ => none

/-- Whether this iteration initiated a download (incremented the counter). -/
def initiated : DStep → Bool
  | .navFailed _ _ _ => true
  | .downloaded _ _ _ _ => true
  | _ => false

/-- Whether the link was rejected for lack of an acceptable URL
(the `continue`s at source lines 180-186). -/
def isUrlSkip : DStep → Bool
  | .skippedNoUrl _ => true
  | .skippedNotPdf _ _ => true
  | _ => false

end DStep

/-- One iteration of the `for i, link in enumerate(pdf_links)` loop of
`download_pdfs` (source lines 150-217), at loop index `i` with counter `c`.
Skips (lines 180-186) and extraction-time raises (caught at lines 212-217)
leave the counter unchanged; once a URL is accepted the counter is
incremented (line 189) before the navigation block, whose failure is caught
by the same per-link handlers. -/
def processLink (run : Run) (i : Nat) (c : Nat) (l : Elem) : Nat × DStep :=
  match extract_url l with
  | .raised => (c, .skippedStale i)
  | .ok u =>
      if pyTruthy u then
        let url := u.getD ""
        if !strEndsWith (lowerStr url) ".pdf" && !containsSub "pdf" (lowerStr url) then
          (c, .skippedNotPdf i url)
        else
          let c2 := c + 1
          match run.nav i with
          | .ok =>
              match rename_latest_download c2 (run.fs i) with
              | .ok r => (c2, .downloaded i c2 url r)
              | .raised => (c2, .navFailed i c2 url)
          | .stale => (c2, .navFailed i c2 url)
          | .err => (c2, .navFailed i c2 url)
      else (c, .skippedNoUrl i)

/-- The download loop over the discovered links, threading the counter and
recording one event per link. -/
def downloadLoop (run : Run) (c : Nat) (i : Nat) : List Elem → Nat × List DStep
  | [] => (c, [])
  | l :: ls =>
      let st := processLink run i c l
      let rest := downloadLoop run st.1 (i + 1) ls
      (rest.1, st.2 :: rest.2)

/-- `download_pdfs` (source lines 138-217): discovers links, returns
immediately when none are found (lines 144-146), otherwise runs the loop.
The result is the final counter and the event trace. -/
def download_pdfs (run : Run) (c0 : Nat) : Nat × List DStep :=
  let links := find_pdf_links run.page
  if links.isEmpty then (c0, [])
  else downloadLoop run c0 0 links

/-- `self.download_counter = 0` in `__init__` (source line 21). -/
def download_counter_init : Nat := 0

/-! ### Derived views used in statements -/

/-- The candidate selected from the listing of polling iteration `j`
(`none` when the listing raises or has no candidates). -/
def selAt (w : RenameWorld) (j : Nat) : Option FsFile :=
  match w.pollListings j with
  | .ok d => selectLatest (candidates d)
  | .raised => none

/-- Whether polling iteration `j` selects a candidate free of the
in-progress marker. -/
def selClearAt (w : RenameWorld) (j : Nat) : Bool :=
  match selAt w j with
  | some f => !crdownloadMarked f.name
  | none => false

/-- `seqFrom s k = [s, s+1, ..., s+k-1]`: the consecutive sequence numbers
consumed by `k` initiated download attempts starting at counter `s-1`. -/
def seqFrom (s : Nat) : Nat → List Nat
  | 0 => []
  | k + 1 => s :: seqFrom (s + 1) k

/-! ### Concrete inputs used by witnesses and counterexamples -/

/-- A page on which every lookup returns no elements. -/
def emptyPage : Page := ⟨fun _ => .ok [], .ok []⟩

/-- A directory world with an empty directory and successful renames. -/
def trivWorld : RenameWorld := ⟨.ok [], fun _ => .ok [], .ok, .ok ()⟩

/-- A run over the empty page. -/
def trivRun : Run := ⟨emptyPage, fun _ => .ok, fun _ => trivWorld⟩

/-- An anchor element with the given identity and `href`. -/
def hrefElem (n : Nat) (u : String) : Elem :=
  ⟨n, .ok "a", .ok (some u), .ok none, .ok none, true⟩

/-- Two distinct elements referencing the same target URL. -/
def urlTwin1 : Elem := hrefElem 21 "https://x.org/same.pdf"

def urlTwin2 : Elem := hrefElem 22 "https://x.org/same.pdf"

/-- A page whose first selector matches the two same-URL twins. -/
def twinPage : Page :=
  ⟨fun s => if s == "a[href$=\x27.pdf\x27]" then .ok [urlTwin1, urlTwin2] else .ok [],
   .ok []⟩

/-- Directory world holding one completed `report.pdf`. -/
def reportWorld : RenameWorld :=
  ⟨.ok [⟨"report.pdf", 10⟩], fun _ => .ok [], .ok, .ok ()⟩

/-- Directory world whose newest candidate is `report.pdf.crdownload`; the
in-progress marker clears at polling iteration 1. -/
def pollWorld : RenameWorld :=
  ⟨.ok [⟨"report.pdf.crdownload", 0⟩],
   (fun i => if i == 0 then .ok [⟨"report.pdf.crdownload", 0⟩] else .ok [⟨"report.pdf", 5⟩]),
   .ok, .ok ()⟩

/-- Directory world where `os.rename` keeps failing with `PermissionError`
and the retry raises as well. -/
def permWorld : RenameWorld :=
  ⟨.ok [⟨"locked.pdf", 4⟩], fun _ => .ok [], .permissionError, .raised⟩

/-- Directory world whose first `os.listdir` raises. -/
def raiseWorld : RenameWorld := ⟨.raised, fun _ => .ok [], .ok, .ok ()⟩

/-- First counterexample link: a visible anchor with a PDF `href`. -/
def cexGood : Elem := ⟨31, .ok "a", .ok (some "https://x.org/b.pdf"), .ok none, .ok none, true⟩

/-- Second counterexample link: a visible anchor whose only data is an
`onclick` mentioning `pdf` but with no `window.open` URL, so URL extraction
fails for it. -/
def cexBad : Elem := ⟨32, .ok "a", .ok none, .ok (some "showPdf()"), .ok none, true⟩

/-- A page where the first selector finds `cexGood` and the last selector
finds `cexBad`, so discovery returns `[cexGood, cexBad]`. -/
def cexPage : Page :=
  ⟨fun s =>
     if s == "a[href$=\x27.pdf\x27]" then .ok [cexGood]
     else if s == "a[onclick*=\x27pdf\x27]" then .ok [cexBad]
     else .ok [],
   .ok []⟩

/-- Directory world for the counterexample's one successful download. -/
def cexFs : RenameWorld := ⟨.ok [⟨"b.pdf", 3⟩], fun _ => .ok [], .ok, .ok ()⟩

/-- Run with a successful first link and an extraction-failing second link. -/
def cexRun : Run := ⟨cexPage, fun _ => .ok, fun _ => cexFs⟩

/-- A run with a single successfully downloaded link. -/
def seqElem : Elem := hrefElem 41 "https://y.org/a.pdf"

def seqPage : Page :=
  ⟨fun s => if s == "a[href$=\x27.pdf\x27]" then .ok [seqElem] else .ok [], .ok []⟩

def seqFs : RenameWorld := ⟨.ok [⟨"a.pdf", 2⟩], fun _ => .ok [], .ok, .ok ()⟩

def seqRun : Run := ⟨seqPage, fun _ => .ok, fun _ => seqFs⟩

/-! ## Lemmas about link discovery -/

theorem elemMem_iff (l : Elem) (acc : List Elem) :
    elemMem l acc = true ↔ ∃ x ∈ acc, x.eid = l.eid := by
  simp [elemMem]

theorem dedupStep_eq (acc : List Elem) (l : Elem) :
    dedupStep acc l = acc ∨ dedupStep acc l = acc ++ [l] := by
  unfold dedupStep
  split
  · exact Or.inr rfl
  · exact Or.inl rfl

theorem addUnique_eq (acc : List Elem) (l : Elem) :
    addUnique acc l = acc ∨ addUnique acc l = acc ++ [l] := by
  unfold addUnique
  split
  · exact Or.inl rfl
  · exact Or.inr rfl

/-- A fold whose step either keeps the accumulator or appends one element
only ever extends the accumulator, by a sublist of the input. -/
theorem foldl_ext_of_step (f : List Elem → Elem → List Elem)
    (hf : ∀ acc l, f acc l = acc ∨ f acc l = acc ++ [l]) :
    ∀ (ls acc : List Elem),
      ∃ ext, List.foldl f acc ls = acc ++ ext ∧ ext.Sublist ls := by
  intro ls
  induction ls with
  | nil => exact fun acc => ⟨[], by simp, by simp⟩
  | cons l t ih =>
      intro acc
      rcases hf acc l with h | h
      · obtain ⟨ext, he, hs⟩ := ih (f acc l)
        exact ⟨ext, by rw [List.foldl_cons, he, h], hs.cons l⟩
      · obtain ⟨ext, he, hs⟩ := ih (f acc l)
        refine ⟨l :: ext, ?_, hs.cons₂ l⟩
        rw [List.foldl_cons, he, h, List.append_assoc]
        rfl

theorem dedup_mem_fwd : ∀ (ls acc : List Elem) (x : Elem),
    x ∈ List.foldl dedupStep acc ls → x ∈ acc ∨ (x ∈ ls ∧ x.displayed = true) := by
  intro ls
  induction ls with
  | nil => intro acc x h; exact Or.inl (by simpa using h)
  | cons l t ih =>
      intro acc x h
      rw [List.foldl_cons] at h
      rcases ih _ x h with h₁ | h₂
      · unfold dedupStep at h₁
        split at h₁
        case isTrue hc =>
          rcases List.mem_append.mp h₁ with h₃ | h₄
          · exact Or.inl h₃
          · have hx : x = l := by simpa using h₄
            subst hx
            have hc' := hc
            simp only [Bool.and_eq_true] at hc'
            exact Or.inr ⟨List.mem_cons_self _ _, hc'.1⟩
        case isFalse => exact Or.inl h₁
      · exact Or.inr ⟨List.mem_cons_of_mem _ h₂.1, h₂.2⟩

theorem dedupStep_pairwise (acc : List Elem) (l : Elem)
    (h : acc.Pairwise (fun a b => a.eid ≠ b.eid)) :
    (dedupStep acc l).Pairwise (fun a b => a.eid ≠ b.eid) := by
  unfold dedupStep
  split
  case isTrue hc =>
    rw [List.pairwise_append]
    refine ⟨h, by simp, ?_⟩
    intro a ha b hb
    have hb' : b = l := by simpa using hb
    show a.eid ≠ b.eid
    rw [hb']
    have hc' := hc
    simp only [Bool.and_eq_true] at hc'
    have hm' : elemMem l acc = false := by simpa using hc'.2
    intro hEq
    have : elemMem l acc = true := (elemMem_iff l acc).mpr ⟨a, ha, hEq⟩
    rw [this] at hm'
    cases hm'
  case isFalse => exact h

theorem dedup_pairwise : ∀ (ls acc : List Elem),
    acc.Pairwise (fun a b => a.eid ≠ b.eid) →
    (List.foldl dedupStep acc ls).Pairwise (fun a b => a.eid ≠ b.eid) := by
  intro ls
  induction ls with
  | nil => intro acc h; simpa using h
  | cons l t ih =>
      intro acc h
      rw [List.foldl_cons]
      exact ih (dedupStep acc l) (dedupStep_pairwise acc l h)

theorem dedup_mem_bwd : ∀ (ls acc : List Elem) (x : Elem),
    x ∈ ls → x.displayed = true →
    ∃ y ∈ List.foldl dedupStep acc ls, y.eid = x.eid := by
  intro ls
  induction ls with
  | nil => intro acc x hx _; cases hx
  | cons l t ih =>
      intro acc x hx hd
      rw [List.foldl_cons]
      rcases List.mem_cons.mp hx with rfl | hxt
      · by_cases hm : elemMem x acc = true
        · obtain ⟨y, hy, hye⟩ := (elemMem_iff x acc).mp hm
          obtain ⟨ext, he, _⟩ := foldl_ext_of_step dedupStep dedupStep_eq t (dedupStep acc x)
          have hyin : y ∈ dedupStep acc x := by
            unfold dedupStep
            split
            · simp [hy]
            · exact hy
          exact ⟨y, by rw [he]; exact List.mem_append_left _ hyin, hye⟩
        · have hm' : elemMem x acc = false := by
            cases hval : elemMem x acc
            · rfl
            · exact absurd hval hm
          have hstep : dedupStep acc x = acc ++ [x] := by
            unfold dedupStep
            rw [hd, hm']
            simp
          obtain ⟨ext, he, _⟩ := foldl_ext_of_step dedupStep dedupStep_eq t (dedupStep acc x)
          refine ⟨x, ?_, rfl⟩
          rw [he, hstep]
          simp
      · exact ih (dedupStep acc l) x hxt hd

theorem cssFold_join (p : Page) : ∀ (sels : List String) (acc : List Elem),
    sels.foldl (cssStep p) acc = acc ++ (sels.map (cssMatches p)).flatten := by
  intro sels
  induction sels with
  | nil => intro acc; simp
  | cons s t ih =>
      intro acc
      rw [List.foldl_cons, ih]
      cases h : p.cssFind s <;> simp [cssStep, cssMatches, h]

/-- C5: every element returned by `find_pdf_links` is visible; each element
appears exactly once by element identity (pairwise distinct element ids),
even when matched by several selector patterns; and every visible collected
element is represented, so deduplication is by identity, not URL: distinct
elements sharing a URL stay distinct entries. -/
theorem find_pdf_links_dedup_visible (p : Page) :
    (find_pdf_links p).Pairwise (fun a b => a.eid ≠ b.eid) ∧
    (∀ l ∈ find_pdf_links p, l ∈ collectedLinks p ∧ l.displayed = true) ∧
    (∀ l ∈ collectedLinks p, l.displayed = true →
      ∃ x ∈ find_pdf_links p, x.eid = l.eid) := by
  refine ⟨?_, ?_, ?_⟩
  · exact dedup_pairwise (collectedLinks p) [] (by simp)
  · intro l hl
    rcases dedup_mem_fwd (collectedLinks p) [] l hl with h | h
    · cases h
    · exact ⟨h.1, h.2⟩
  · intro l hl hd
    exact dedup_mem_bwd (collectedLinks p) [] l hl hd

/-- C5 witness: on a page where one selector matches two distinct elements
referencing the same URL, both remain represented in the result. -/
theorem find_pdf_links_dedup_visible_w :
    (∃ x ∈ find_pdf_links twinPage, x.eid = urlTwin1.eid) ∧
    (∃ x ∈ find_pdf_links twinPage, x.eid = urlTwin2.eid) :=
  ⟨(find_pdf_links_dedup_visible twinPage).2.2 urlTwin1 (by decide) (by decide),
   (find_pdf_links_dedup_visible twinPage).2.2 urlTwin2 (by decide) (by decide)⟩

/-- C6: the sequence returned by `find_pdf_links` follows
selector-application order — the per-selector CSS matches concatenated in
their listed order, then the new XPath broad-pattern matches appended — and
the final result is an order-preserving sublist of that collection (no
sorting anywhere). -/
theorem find_pdf_links_order (p : Page) :
    gatherCss p = (selectors.map (cssMatches p)).flatten ∧
    (∃ ext, collectedLinks p = gatherCss p ++ ext ∧ ext.Sublist (xpathMatches p)) ∧
    (find_pdf_links p).Sublist (collectedLinks p) := by
  refine ⟨by simpa using cssFold_join p selectors [], ?_, ?_⟩
  · obtain ⟨ext, he, hs⟩ := foldl_ext_of_step addUnique addUnique_eq (xpathMatches p) (gatherCss p)
    exact ⟨ext, he, hs⟩
  · obtain ⟨ext, he, hs⟩ := foldl_ext_of_step dedupStep dedupStep_eq (collectedLinks p) []
    have : find_pdf_links p = ext := by
      show List.foldl dedupStep [] (collectedLinks p) = ext
      rw [he]
      rfl
    rw [this]
    exact hs

/-- C7: when link discovery finds nothing, `download_pdfs` returns at once:
the counter is unchanged and the event trace is empty (no tab opened, no
navigation, no download initiated). -/
theorem download_pdfs_no_links (run : Run) (c0 : Nat)
    (h : find_pdf_links run.page = []) : download_pdfs run c0 = (c0, []) := by
  unfold download_pdfs
  rw [h]
  rfl

/-- C7 witness: a run over a page with no matching elements. -/
theorem download_pdfs_no_links_w : download_pdfs trivRun 0 = (0, []) :=
  download_pdfs_no_links trivRun 0 (by rfl)

/-! ## Lemmas about the download loop -/

theorem processLink_counter (run : Run) (i c : Nat) (l : Elem) :
    (processLink run i c l).1 =
      (if ((processLink run i c l).2).initiated then c + 1 else c) := by
  unfold processLink
  cases extract_url l with
  | raised => rfl
  | ok u =>
      dsimp only
      split
      · split
        · rfl
        · cases run.nav i with
          | ok =>
              cases rename_latest_download (c + 1) (run.fs i) with
              | ok r => rfl
              | raised => rfl
          | stale => rfl
          | err => rfl
      · rfl

theorem processLink_cases (run : Run) (i c : Nat) (l : Elem) :
    ((processLink run i c l).1 = c ∧ ((processLink run i c l).2).seqNum = none) ∨
    ((processLink run i c l).1 = c + 1 ∧
      ((processLink run i c l).2).seqNum = some (c + 1)) := by
  unfold processLink
  cases extract_url l with
  | raised => exact Or.inl ⟨rfl, rfl⟩
  | ok u =>
      dsimp only
      split
      · split
        · exact Or.inl ⟨rfl, rfl⟩
        · cases run.nav i with
          | ok =>
              cases rename_latest_download (c + 1) (run.fs i) with
              | ok r => exact Or.inr ⟨rfl, rfl⟩
              | raised => exact Or.inr ⟨rfl, rfl⟩
          | stale => exact Or.inr ⟨rfl, rfl⟩
          | err => exact Or.inr ⟨rfl, rfl⟩
      · exact Or.inl ⟨rfl, rfl⟩

theorem downloadLoop_mono (run : Run) : ∀ (ls : List Elem) (c i : Nat),
    c ≤ (downloadLoop run c i ls).1 := by
  intro ls
  induction ls with
  | nil => intro c i; exact Nat.le_refl c
  | cons l t ih =>
      intro c i
      show c ≤ (downloadLoop run (processLink run i c l).1 (i + 1) t).1
      have hc : c ≤ (processLink run i c l).1 := by
        rcases processLink_cases run i c l with ⟨h1, _⟩ | ⟨h1, _⟩
        · rw [h1]
        · rw [h1]; exact Nat.le_succ c
      exact Nat.le_trans hc (ih _ _)

theorem downloadLoop_seqNums (run : Run) : ∀ (ls : List Elem) (c i : Nat),
    ((downloadLoop run c i ls).2).filterMap DStep.seqNum
      = seqFrom (c + 1) ((downloadLoop run c i ls).1 - c) := by
  intro ls
  induction ls with
  | nil => intro c i; simp [downloadLoop, seqFrom]
  | cons l t ih =>
      intro c i
      rcases processLink_cases run i c l with ⟨h1, h2⟩ | ⟨h1, h2⟩
      · show (((processLink run i c l).2 ::
            (downloadLoop run (processLink run i c l).1 (i + 1) t).2).filterMap DStep.seqNum)
          = seqFrom (c + 1) ((downloadLoop run (processLink run i c l).1 (i + 1) t).1 - c)
        simp only [List.filterMap_cons, h2, h1]
        exact ih c (i + 1)
      · show (((processLink run i c l).2 ::
            (downloadLoop run (processLink run i c l).1 (i + 1) t).2).filterMap DStep.seqNum)
          = seqFrom (c + 1) ((downloadLoop run (processLink run i c l).1 (i + 1) t).1 - c)
        simp only [List.filterMap_cons, h2, h1]
        rw [ih (c + 1) (i + 1)]
        have hF : c + 1 ≤ (downloadLoop run (c + 1) (i + 1) t).1 :=
          downloadLoop_mono run t (c + 1) (i + 1)
        have hsub : (downloadLoop run (c + 1) (i + 1) t).1 - c
            = ((downloadLoop run (c + 1) (i + 1) t).1 - (c + 1)) + 1 := by omega
        rw [hsub]
        rfl

/-- C9: the download counter starts at 0 and never decreases: each loop
iteration either leaves it unchanged or increments it by exactly one, and it
is incremented exactly when a download attempt is initiated; consequently
`download_pdfs` never decreases it across a run. -/
theorem download_counter_monotone :
    download_counter_init = 0 ∧
    (∀ (run : Run) (i c : Nat) (l : Elem),
      (processLink run i c l).1 =
        (if ((processLink run i c l).2).initiated then c + 1 else c)) ∧
    (∀ (run : Run) (c0 : Nat), c0 ≤ (download_pdfs run c0).1) := by
  refine ⟨rfl, processLink_counter, ?_⟩
  intro run c0
  by_cases h : (find_pdf_links run.page).isEmpty
  · simp [download_pdfs, h]
  · simp only [download_pdfs, h, if_false]
    exact downloadLoop_mono run (find_pdf_links run.page) c0 0

/-- C3: a candidate URL produced by the extraction fallback chain is rejected
by `download_pdfs` (the link is skipped without initiating a download) if and
only if it is empty, or it neither ends with `".pdf"` nor contains `"pdf"`
anywhere, case-insensitively; in particular `"https://x.org/report"` is
rejected while `"https://x.org/report.pdf"` and `"https://x.org/pdf/report"`
are accepted. -/
theorem url_filter_rejects_iff :
    (∀ (run : Run) (i c : Nat) (l : Elem) (u : String),
      extract_url l = .ok (some u) →
      (((processLink run i c l).2).isUrlSkip = true ↔
        (u = "" ∨ (strEndsWith (lowerStr u) ".pdf" = false ∧
                   containsSub "pdf" (lowerStr u) = false)))) ∧
    ((processLink trivRun 0 0 (hrefElem 10 "https://x.org/report")).2.isUrlSkip = true) ∧
    ((processLink trivRun 0 0 (hrefElem 11 "https://x.org/report.pdf")).2.isUrlSkip = false) ∧
    ((processLink trivRun 0 0 (hrefElem 12 "https://x.org/pdf/report")).2.isUrlSkip = false) := by
  refine ⟨?_, by decide, by decide, by decide⟩
  intro run i c l u h
  unfold processLink
  rw [h]
  dsimp only
  by_cases hu : u = ""
  · subst hu
    simp [pyTruthy, DStep.isUrlSkip]
  · have ht : pyTruthy (some u) = true := by simp [pyTruthy, hu]
    rw [ht, if_pos rfl]
    simp only [Option.getD_some]
    by_cases hb : (!strEndsWith (lowerStr u) ".pdf" && !containsSub "pdf" (lowerStr u)) = true
    · rw [hb, if_pos rfl]
      have he : strEndsWith (lowerStr u) ".pdf" = false := by
        cases hval : strEndsWith (lowerStr u) ".pdf"
        · rfl
        · rw [hval] at hb; simp at hb
      have hc2 : containsSub "pdf" (lowerStr u) = false := by
        cases hval : containsSub "pdf" (lowerStr u)
        · rfl
        · rw [hval] at hb; simp at hb
      simp [DStep.isUrlSkip, he, hc2]
    · have hb' : (!strEndsWith (lowerStr u) ".pdf" && !containsSub "pdf" (lowerStr u)) = false := by
        cases hval : (!strEndsWith (lowerStr u) ".pdf" && !containsSub "pdf" (lowerStr u))
        · rfl
        · exact absurd hval hb
      rw [hb']
      have hor : strEndsWith (lowerStr u) ".pdf" = true ∨
          containsSub "pdf" (lowerStr u) = true := by
        cases he : strEndsWith (lowerStr u) ".pdf"
        · cases hc2 : containsSub "pdf" (lowerStr u)
          · rw [he, hc2] at hb'; simp at hb'
          · exact Or.inr rfl
        · exact Or.inl rfl
      have hnot : ¬(u = "" ∨ (strEndsWith (lowerStr u) ".pdf" = false ∧
          containsSub "pdf" (lowerStr u) = false)) := by
        rintro (h1 | ⟨h2, h3⟩)
        · exact hu h1
        · rcases hor with hx | hy
          · rw [h2] at hx; cases hx
          · rw [h3] at hy; cases hy
      cases run.nav i with
      | ok =>
          cases rename_latest_download (c + 1) (run.fs i) with
          | ok r => simp [DStep.isUrlSkip, hnot]
          | raised => simp [DStep.isUrlSkip, hnot]
      | stale => simp [DStep.isUrlSkip, hnot]
      | err => simp [DStep.isUrlSkip, hnot]

/-- C3 witness: the filter theorem applied to a concrete link whose candidate
URL has no `pdf` substring. -/
theorem url_filter_rejects_iff_w :
    (processLink trivRun 0 0 (hrefElem 13 "https://y.org/plain")).2.isUrlSkip = true :=
  (url_filter_rejects_iff.1 trivRun 0 0 (hrefElem 13 "https://y.org/plain")
    "https://y.org/plain" (by rfl)).mpr (by decide)

/-! ## Lemmas and claims about the finalizer -/

/-- C2: invoking the finalizer with sequence number `n` on a directory whose
most-recently-modified candidate is a completed (non-in-progress) file
renames that file by prefixing the zero-padded 3-digit form of `n` and a
separator, with no polling delay. -/
theorem finalize_renames_completed (n : Nat) (w : RenameWorld) (dir : List FsFile)
    (f : FsFile)
    (h1 : w.listing0 = .ok dir)
    (h2 : selectLatest (candidates dir) = some f)
    (h3 : crdownloadMarked f.name = false)
    (h4 : w.renameResult = .ok) :
    rename_latest_download n w
      = .ok (.renamed f.name (pad3 n ++ "-" ++ f.name), []) := by
  simp [rename_latest_download, rename_body, h1, h2, h3, h4]

/-- C2 witness: sequence number 7 on a completed `report.pdf` yields
`007-report.pdf`. -/
theorem finalize_renames_completed_w :
    rename_latest_download 7 reportWorld
      = .ok (.renamed "report.pdf" "007-report.pdf", []) :=
  finalize_renames_completed 7 reportWorld [⟨"report.pdf", 10⟩] ⟨"report.pdf", 10⟩
    rfl rfl rfl rfl

/-- C8: when the rename of the completed file fails with a permission error,
the finalizer retries exactly once after a 5 time-unit delay (the sleep list
is `[5]`); if the retry succeeds the file is renamed, and if the retry also
fails the finalizer returns normally with the file unrenamed. -/
theorem rename_permission_retry (n : Nat) (w : RenameWorld) (dir : List FsFile)
    (f : FsFile)
    (h1 : w.listing0 = .ok dir)
    (h2 : selectLatest (candidates dir) = some f)
    (h3 : crdownloadMarked f.name = false)
    (h4 : w.renameResult = .permissionError) :
    rename_latest_download n w
      = .ok (match w.retryResult with
             | .ok _ => (.renamed f.name (pad3 n ++ "-" ++ f.name), [5])
             | .raised => (.renameFailedTwice f.name (pad3 n ++ "-" ++ f.name), [5])) := by
  cases hr : w.retryResult <;>
    simp [rename_latest_download, rename_body, h1, h2, h3, h4, hr]

/-- C8 witness: a permission failure whose retry raises as well is abandoned
after the one 5-unit retry, without raising. -/
theorem rename_permission_retry_w :
    rename_latest_download 11 permWorld
      = .ok (.renameFailedTwice "locked.pdf" "011-locked.pdf", [5]) :=
  rename_permission_retry 11 permWorld [⟨"locked.pdf", 4⟩] ⟨"locked.pdf", 4⟩
    rfl rfl rfl rfl

/-- C10: `rename_latest_download` always returns normally — for every
sequence number and every outcome of the filesystem operations, the result is
`Exn.ok`; any raise inside the body is absorbed by the enclosing catch-all,
which returns the `.caught` outcome. -/
theorem rename_never_raises :
    (∀ (n : Nat) (w : RenameWorld), ∃ r, rename_latest_download n w = .ok r) ∧
    (∀ (n : Nat) (w : RenameWorld), (rename_body n w).1 = .raised →
      rename_latest_download n w = .ok (.caught, (rename_body n w).2)) := by
  constructor
  · intro n w
    rcases hb : rename_body n w with ⟨e, s⟩
    cases e with
    | ok r => exact ⟨(r, s), by unfold rename_latest_download; rw [hb]⟩
    | raised => exact ⟨(.caught, s), by unfold rename_latest_download; rw [hb]⟩
  · intro n w hr
    rcases hb : rename_body n w with ⟨e, s⟩
    rw [hb] at hr
    dsimp at hr
    subst hr
    unfold rename_latest_download
    rw [hb]

/-- C10 witness: a raising first `os.listdir` is caught and reported
normally. -/
theorem rename_never_raises_w :
    rename_latest_download 0 raiseWorld = .ok (.caught, []) :=
  rename_never_raises.2 0 raiseWorld rfl

theorem pollLoop_sleeps (w : RenameWorld) : ∀ (k : Nat) (cur : FsFile) (i : Nat),
    ∃ m, m ≤ k ∧ (pollLoop w cur i k).2 = List.replicate m 1 := by
  intro k
  induction k with
  | zero => intro cur i; exact ⟨0, Nat.le_refl 0, rfl⟩
  | succ k ih =>
      intro cur i
      cases hl : w.pollListings i with
      | raised =>
          refine ⟨1, by omega, ?_⟩
          simp [pollLoop, hl]
      | ok dir =>
          cases hs : selectLatest (candidates dir) with
          | none =>
              obtain ⟨m, hm, he⟩ := ih cur (i + 1)
              refine ⟨m + 1, by omega, ?_⟩
              simp [pollLoop, hl, hs, he, List.replicate_succ]
          | some f =>
              cases hmk : crdownloadMarked f.name with
              | false =>
                  refine ⟨1, by omega, ?_⟩
                  simp [pollLoop, hl, hs, hmk]
              | true =>
                  obtain ⟨m, hm, he⟩ := ih f (i + 1)
                  refine ⟨m + 1, by omega, ?_⟩
                  simp [pollLoop, hl, hs, hmk, he, List.replicate_succ]

theorem pollLoop_all_marked (w : RenameWorld) : ∀ (k i : Nat) (cur : FsFile),
    crdownloadMarked cur.name = true →
    (∀ j, i ≤ j → j < i + k →
      (w.pollListings j).isOk = true ∧ selClearAt w j = false) →
    ∃ g, pollLoop w cur i k = (.ok g, List.replicate k 1) ∧
      crdownloadMarked g.name = true := by
  intro k
  induction k with
  | zero => intro i cur hc _; exact ⟨cur, rfl, hc⟩
  | succ k ih =>
      intro i cur hc hall
      obtain ⟨hok, hclear⟩ := hall i (Nat.le_refl i) (by omega)
      cases hl : w.pollListings i with
      | raised => rw [hl] at hok; cases hok
      | ok dir =>
          cases hs : selectLatest (candidates dir) with
          | none =>
              obtain ⟨g, hg, hgm⟩ :=
                ih (i + 1) cur hc (fun j hj1 hj2 => hall j (by omega) (by omega))
              exact ⟨g, by simp [pollLoop, hl, hs, hg, List.replicate_succ], hgm⟩
          | some f =>
              have hfm : crdownloadMarked f.name = true := by
                have hclear' := hclear
                simp only [selClearAt, selAt, hl, hs] at hclear'
                cases hv : crdownloadMarked f.name
                · rw [hv] at hclear'; simp at hclear'
                · rfl
              obtain ⟨g, hg, hgm⟩ :=
                ih (i + 1) f hfm (fun j hj1 hj2 => hall j (by omega) (by omega))
              exact ⟨g, by simp [pollLoop, hl, hs, hfm, hg, List.replicate_succ], hgm⟩

theorem pollLoop_first_clear (w : RenameWorld) :
    ∀ (k i : Nat) (cur : FsFile) (j : Nat) (f : FsFile),
    i ≤ j → j < i + k →
    (∀ jp, i ≤ jp → jp < j →
      (w.pollListings jp).isOk = true ∧ selClearAt w jp = false) →
    selAt w j = some f → crdownloadMarked f.name = false →
    pollLoop w cur i k = (.ok f, List.replicate (j - i + 1) 1) := by
  intro k
  induction k with
  | zero => intro i cur j f hij hjk _ _ _; omega
  | succ k ih =>
      intro i cur j f hij hjk hall hsel hfm
      rcases Nat.eq_or_lt_of_le hij with heq | hlt
      · subst heq
        cases hl : w.pollListings i with
        | raised => simp [selAt, hl] at hsel
        | ok dir =>
            have hs : selectLatest (candidates dir) = some f := by
              simp only [selAt, hl] at hsel
              exact hsel
            simp [pollLoop, hl, hs, hfm, Nat.sub_self]
      · obtain ⟨hok, hclear⟩ := hall i (Nat.le_refl i) hlt
        cases hl : w.pollListings i with
        | raised => rw [hl] at hok; cases hok
        | ok dir =>
            cases hs : selectLatest (candidates dir) with
            | none =>
                have hrec := ih (i + 1) cur j f (by omega) (by omega)
                  (fun jp h1 h2 => hall jp (by omega) h2) hsel hfm
                have hsub : j - i + 1 = (j - (i + 1) + 1) + 1 := by omega
                rw [hsub]
                simp [pollLoop, hl, hs, hrec, List.replicate_succ]
            | some g =>
                have hgm : crdownloadMarked g.name = true := by
                  have hclear' := hclear
                  simp only [selClearAt, selAt, hl, hs] at hclear'
                  cases hv : crdownloadMarked g.name
                  · rw [hv] at hclear'; simp at hclear'
                  · rfl
                have hrec := ih (i + 1) g j f (by omega) (by omega)
                  (fun jp h1 h2 => hall jp (by omega) h2) hsel hfm
                have hsub : j - i + 1 = (j - (i + 1) + 1) + 1 := by omega
                rw [hsub]
                simp [pollLoop, hl, hs, hgm, hrec, List.replicate_succ]

/-- C4: when the most-recently-modified candidate carries the in-progress
marker, the finalizer polls once per time-unit (every poll sleep lasts one
unit) for at most 30 iterations, re-listing and re-selecting the most recent
candidate each iteration; if the re-selected candidate first drops the
marker at iteration `j < 30`, that file is renamed (after `j + 1` unit
sleeps); if every iteration within the budget still selects a marked
candidate or none, the finalizer leaves the file untouched (`timedOut`)
after exactly 30 unit sleeps and returns normally instead of raising. -/
theorem finalize_poll_budget (n : Nat) (w : RenameWorld) (dir : List FsFile)
    (f0 : FsFile)
    (h1 : w.listing0 = .ok dir)
    (h2 : selectLatest (candidates dir) = some f0)
    (h3 : crdownloadMarked f0.name = true) :
    (∃ m, m ≤ 30 ∧ (pollLoop w f0 0 30).2 = List.replicate m 1) ∧
    (∀ (j : Nat) (f : FsFile), j < 30 →
      (∀ jp, jp < j → (w.pollListings jp).isOk = true ∧ selClearAt w jp = false) →
      selAt w j = some f → crdownloadMarked f.name = false →
      w.renameResult = .ok →
      rename_latest_download n w
        = .ok (.renamed f.name (pad3 n ++ "-" ++ f.name), List.replicate (j + 1) 1)) ∧
    ((∀ j, j < 30 → (w.pollListings j).isOk = true ∧ selClearAt w j = false) →
      ∃ g, rename_latest_download n w = .ok (.timedOut g, List.replicate 30 1)) := by
  refine ⟨pollLoop_sleeps w 30 f0 0, ?_, ?_⟩
  · intro j f hj hall hsel hfm hren
    have hp := pollLoop_first_clear w 30 0 f0 j f (Nat.zero_le j) (by omega)
      (fun jp _ h2p => hall jp h2p) hsel hfm
    have hj0 : j - 0 + 1 = j + 1 := by omega
    rw [hj0] at hp
    simp [rename_latest_download, rename_body, h1, h2, h3, hp, hfm, hren]
  · intro hall
    obtain ⟨g, hp, hgm⟩ := pollLoop_all_marked w 30 0 f0 h3
      (fun j _ hlt => hall j (by omega))
    exact ⟨g.name, by simp [rename_latest_download, rename_body, h1, h2, h3, hp, hgm]⟩

/-- C4 witness: the marker clears at polling iteration 1, so the completed
`report.pdf` is renamed after two unit sleeps. -/
theorem finalize_poll_budget_w :
    rename_latest_download 9 pollWorld
      = .ok (.renamed "report.pdf" "009-report.pdf", [1, 1]) :=
  (finalize_poll_budget 9 pollWorld [⟨"report.pdf.crdownload", 0⟩]
      ⟨"report.pdf.crdownload", 0⟩ rfl rfl rfl).2.1 1 ⟨"report.pdf", 5⟩
    (by omega) (by decide) rfl rfl rfl

/-! ## Lemmas connecting the loop to the finalizer (sequence numbering) -/

theorem rename_body_renamed (n : Nat) (w : RenameWorld) (old nn : String)
    (h : (rename_body n w).1 = Exn.ok (RenameResult.renamed old nn)) :
    nn = pad3 n ++ "-" ++ old := by
  unfold rename_body at h
  cases hl : w.listing0 with
  | raised => simp only [hl] at h; cases h
  | ok dir =>
      simp only [hl] at h
      cases hs : selectLatest (candidates dir) with
      | none => simp only [hs] at h; cases h
      | some latest0 =>
          simp only [hs] at h
          rcases hp : (if crdownloadMarked latest0.name then pollLoop w latest0 0 30
              else (Exn.ok latest0, [])) with ⟨pe, ps⟩
          simp only [hp] at h
          cases pe with
          | raised => simp at h
          | ok latest =>
              cases hm : crdownloadMarked latest.name with
              | true => simp [hm] at h
              | false =>
                  simp only [hm] at h
                  cases hr : w.renameResult with
                  | ok =>
                      simp only [hr] at h
                      simp only [Bool.false_eq_true, if_false, Exn.ok.injEq,
                        RenameResult.renamed.injEq] at h
                      rw [← h.2, h.1]
                  | otherError =>
                      simp [hr] at h
                  | permissionError =>
                      simp only [hr] at h
                      cases hq : w.retryResult with
                      | ok u =>
                          simp only [hq] at h
                          simp only [Bool.false_eq_true, if_false, Exn.ok.injEq,
                            RenameResult.renamed.injEq] at h
                          rw [← h.2, h.1]
                      | raised => simp [hq] at h

theorem rename_renamed_prefix (n : Nat) (w : RenameWorld) (old nn : String)
    (s : List Nat)
    (h : rename_latest_download n w = .ok (.renamed old nn, s)) :
    nn = pad3 n ++ "-" ++ old := by
  apply rename_body_renamed n w old nn
  unfold rename_latest_download at h
  rcases hb : rename_body n w with ⟨e, s2⟩
  rw [hb] at h
  cases e with
  | raised => simp at h
  | ok r =>
      simp at h
      show Exn.ok r = Exn.ok (RenameResult.renamed old nn)
      rw [h.1]

theorem processLink_downloaded (run : Run) (i c : Nat) (l : Elem) (a n : Nat)
    (url2 : String) (r : RenameResult × List Nat)
    (h : (processLink run i c l).2 = DStep.downloaded a n url2 r) :
    rename_latest_download n (run.fs a) = .ok r ∧ a = i ∧ n = c + 1 := by
  unfold processLink at h
  cases hx : extract_url l with
  | raised => simp only [hx] at h; cases h
  | ok u =>
      simp only [hx] at h
      cases hpt : pyTruthy u with
      | false => simp [hpt] at h
      | true =>
          cases hformat : (!strEndsWith (lowerStr (u.getD "")) ".pdf" &&
              !containsSub "pdf" (lowerStr (u.getD ""))) with
          | true => simp [hpt, hformat] at h
          | false =>
              cases hnav : run.nav i with
              | stale => simp [hpt, hformat, hnav] at h
              | err => simp [hpt, hformat, hnav] at h
              | ok =>
                  cases hr : rename_latest_download (c + 1) (run.fs i) with
                  | raised => simp [hpt, hformat, hnav, hr] at h
                  | ok r2 =>
                      simp [hpt, hformat, hnav, hr] at h
                      obtain ⟨h1, h2, _, h4⟩ := h
                      refine ⟨?_, h1.symm, h2.symm⟩
                      rw [← h1, ← h2, ← h4]
                      exact hr

theorem downloadLoop_mem (run : Run) : ∀ (ls : List Elem) (c i : Nat) (ev : DStep),
    ev ∈ (downloadLoop run c i ls).2 →
    ∃ i2 c2 l, l ∈ ls ∧ ev = (processLink run i2 c2 l).2 := by
  intro ls
  induction ls with
  | nil => intro c i ev h; simp [downloadLoop] at h
  | cons l t ih =>
      intro c i ev h
      have hshape : (downloadLoop run c i (l :: t)).2
          = (processLink run i c l).2
            :: (downloadLoop run (processLink run i c l).1 (i + 1) t).2 := rfl
      rw [hshape] at h
      rcases List.mem_cons.mp h with he | ht
      · exact ⟨i, c, l, List.mem_cons_self _ _, he⟩
      · obtain ⟨i2, c2, l2, hl2, he2⟩ := ih (processLink run i c l).1 (i + 1) ev ht
        exact ⟨i2, c2, l2, List.mem_cons_of_mem _ hl2, he2⟩

/-- C1 (amended): sequence numbers are consumed, in discovery order, exactly
by the links that pass URL extraction and the acceptance filter: the trace's
consumed numbers are consecutive from `c0 + 1` up to the final counter, so a
link whose attempt fails after initiation (navigation or staleness, i.e. a
`navFailed` event) still consumes its number and leaves a gap among renamed
files, while a link rejected during extraction or filtering consumes no
number; and every successful finalizer rename inside the trace prefixes the
file with the zero-padded 3-digit form of the consumed number.  (The original
claim is false in asserting that extraction failures also consume a number:
see the counterexample.) -/
theorem download_seq_numbers (run : Run) (c0 : Nat) :
    ((download_pdfs run c0).2).filterMap DStep.seqNum
      = seqFrom (c0 + 1) ((download_pdfs run c0).1 - c0) ∧
    (∀ ev ∈ (download_pdfs run c0).2, ∀ (a n : Nat) (url2 : String)
        (r : RenameResult × List Nat), ev = DStep.downloaded a n url2 r →
      ∀ old nn, r.1 = RenameResult.renamed old nn →
        nn = pad3 n ++ "-" ++ old) := by
  constructor
  · by_cases h : (find_pdf_links run.page).isEmpty
    · simp [download_pdfs, h, seqFrom]
    · simp only [download_pdfs, h, if_false]
      exact downloadLoop_seqNums run (find_pdf_links run.page) c0 0
  · intro ev hev a n url2 r hevEq old nn hr1
    by_cases h : (find_pdf_links run.page).isEmpty
    · simp [download_pdfs, h] at hev
    · simp only [download_pdfs, h, if_false] at hev
      obtain ⟨i2, c2, l, _, hevp⟩ :=
        downloadLoop_mem run (find_pdf_links run.page) c0 0 ev hev
      rw [hevEq] at hevp
      obtain ⟨hren, _, _⟩ :=
        processLink_downloaded run i2 c2 l a n url2 r hevp.symm
      have hren2 : rename_latest_download n (run.fs a) = .ok (.renamed old nn, r.2) := by
        rw [hren]
        rw [← hr1]
      exact rename_renamed_prefix n (run.fs a) old nn r.2 hren2

/-- C1 counterexample: a run over two discovered links where the first
succeeds and the second fails URL extraction.  The claim predicts that the
failed attempt at position 2 still consumes sequence number `002`; in fact
the extraction failure happens before the counter increment, so the run
consumes only number 1 (the successful first link, renamed with prefix
`001-`), number 2 is never consumed, and the skip event carries no sequence
number. -/
theorem download_seq_numbers_cex :
    (download_pdfs cexRun 0).2
      = [DStep.downloaded 0 1 "https://x.org/b.pdf"
           (.renamed "b.pdf" "001-b.pdf", []),
         DStep.skippedNoUrl 1] ∧
    ((download_pdfs cexRun 0).2).filterMap DStep.seqNum = [1] ∧
    (2 : Nat) ∉ ((download_pdfs cexRun 0).2).filterMap DStep.seqNum ∧
    DStep.seqNum (DStep.skippedNoUrl 1) = none := by
  exact ⟨rfl, rfl, by decide, rfl⟩

/-- C1 witness: the amended theorem applied to a one-link run whose download
succeeds and is renamed with prefix `001-`. -/
theorem download_seq_numbers_w :
    ((download_pdfs seqRun 0).2).filterMap DStep.seqNum
      = seqFrom (0 + 1) ((download_pdfs seqRun 0).1 - 0) ∧
    "001-a.pdf" = pad3 1 ++ "-" ++ "a.pdf" :=
  ⟨(download_seq_numbers seqRun 0).1,
   (download_seq_numbers seqRun 0).2
     (DStep.downloaded 0 1 "https://y.org/a.pdf" (.renamed "a.pdf" "001-a.pdf", []))
     (by decide) 0 1 "https://y.org/a.pdf" (.renamed "a.pdf" "001-a.pdf", []) rfl
     "a.pdf" "001-a.pdf" rfl⟩
